import Mathlib

/-!
Verification development for the ParseTrail statement-parsing core.

The definitions below are a shallow embedding of the Python source in
`client/src/parsetrail/core/parse.py` and `client/src/parsetrail/core/plugins.py`:
pure functions become Lean functions, exceptions become `Except String`,
Python `dict`s become association lists with insertion-order semantics,
`float` amounts are embedded as exact rationals, and `datetime` values as
integers (only their ordering matters here).  Components that live in
modules absent from the source tree (`parsetrail.core.interfaces`,
`parsetrail.core.validation`) are modelled from the specification and are
marked as such in their doc comments.
-/

namespace PT

/-! ## ContentMatcher: `parse_search_string` / `evaluate_tree` / `match_search_string`

Embedding of `parse.py` lines 37-139. -/

/-- `strLower` models Python `str.lower()` (ASCII case folding, which is all the
matcher's inputs use). -/
def strLower (s : String) : String := ⟨s.data.map Char.toLower⟩

/-- A character that the tokenizer regex class `[^()&|]` accepts. -/
def notSpecial (c : Char) : Bool :=
  !(c = '(' || c = ')' || c = '&' || c = '|')

/-- Embedding of `tokenize` (`parse.py` line 48-49):
`re.findall(r'&&|\|\||\(|\)|"[^"]*"|[^()&|]+', expr.lower())` on the character
list of the (already lower-cased) expression.  `re.findall` scans left to
right trying the alternatives in order; a position where no alternative
matches (a lone `&` or `|`) is skipped.  A quoted token keeps its quote
characters, exactly as the regex alternative `"[^"]*"` does. -/
def tokenizeF : Nat → List Char → List String
  | 0, _ => []
  | _ + 1, [] => []
  | fuel + 1, '&' :: '&' :: rest => "&&" :: tokenizeF fuel rest
  | fuel + 1, '|' :: '|' :: rest => "||" :: tokenizeF fuel rest
  | fuel + 1, '(' :: rest => "(" :: tokenizeF fuel rest
  | fuel + 1, ')' :: rest => ")" :: tokenizeF fuel rest
  | fuel + 1, c :: rest =>
    if c = '"' && rest.any (fun d => d = '"') then
      String.mk ('"' :: (rest.takeWhile (fun d => d ≠ '"') ++ ['"'])) ::
        tokenizeF fuel (rest.dropWhile (fun d => d ≠ '"')).tail
    else if c = '&' || c = '|' then
      tokenizeF fuel rest
    else
      String.mk (c :: rest.takeWhile notSpecial) ::
        tokenizeF fuel (rest.dropWhile notSpecial)

/-- The scan consumes at least one character per step, so `length + 1` units
of fuel always suffice; the fuel only makes the recursion structural (and so
kernel-computable). -/
def tokenize (cs : List Char) : List String := tokenizeF (cs.length + 1) cs

/-- The nested-list tree that `build_tree` produces, with the list spine built
into the constructors (a Python list `[x, y, ...]` of tokens and sub-lists is
`tok/sub x (tok/sub y (... nil))`): parenthesized groups become `sub` nodes,
every other token stays a string.  The spine encoding keeps the evaluator's
recursion structural. -/
inductive Node where
  | nil
  | tok (s : String) (rest : Node)
  | sub (ns : Node) (rest : Node)
deriving DecidableEq, Repr

/-- `list.append(x)` on the spine encoding. -/
def Node.append : Node → Node → Node
  | .nil, y => y
  | .tok s r, y => .tok s (Node.append r y)
  | .sub n r, y => .sub n (Node.append r y)

/-- Embedding of `build_tree` (`parse.py` lines 51-72).  `stack` holds the
suspended outer lists, `current` the list being filled; Python appends at the
end of `current`, modelled by `Node.append`. -/
def buildGo : List String → List Node → Node → Except String Node
  | [], [], current => .ok current
  | [], _ :: _, _ => .error "Unmatched opening parenthesis"
  | t :: rest, stack, current =>
    if t = "(" then buildGo rest (current :: stack) .nil
    else if t = ")" then
      match stack with
      | [] => .error "Unmatched closing parenthesis"
      | prev :: stack2 => buildGo rest stack2 (prev.append (.sub current .nil))
    else buildGo rest stack (current.append (.tok t .nil))

/-- Embedding of `parse_search_string` (`parse.py` lines 37-75): lower-case,
tokenize, build the nested-list tree. -/
def parseSearchString (s : String) : Except String Node :=
  buildGo (tokenize (strLower s).data) [] .nil

/-- Python's `needle in haystack` substring test on character lists:
true iff `needle` occurs contiguously in `hay` (always true for an empty
needle, as in Python). -/
def containsSub (needle : List Char) : List Char → Bool
  | [] => needle.isEmpty
  | c :: rest => needle.isPrefixOf (c :: rest) || containsSub needle rest

/-- Python `repr` of the evaluator's boolean stack, as interpolated into the
message `f"Malformed expression. Final Stack: {stack}"`. -/
def pyBoolList (bs : List Bool) : String :=
  "[" ++ String.intercalate ", " (bs.map (fun b => if b then "True" else "False")) ++ "]"

/-- The final `if len(stack) != 1 ... return stack[0]` step of `evaluate_tree`
(`parse.py` lines 119-121).  The Lean stack is head-first (Python appends and
pops at the end), so the Python-order rendering reverses it. -/
def finalStack (stack : List Bool) : Except String Bool :=
  match stack with
  | [b] => .ok b
  | _ => .error ("Malformed expression. Final Stack: " ++ pyBoolList stack.reverse)

/-- Embedding of `evaluate_tree` (`parse.py` lines 78-121) on the lower-cased
text (Python lowers the text on entry of every call; lowering is idempotent so
it is done once in `evaluateTree`).  An operator pops its left operand and
recursively evaluates the entire remainder of the token stream with a fresh
stack as its right operand; since that recursive call consumes every remaining
token, the outer loop then terminates and runs the final stack check.  A
string token that is not an operator is tested for substring containment in
the text, quotes and all. -/
def evalNodes (text2 : List Char) : Node → List Bool → Except String Bool
  | .nil, stack => finalStack stack
  | .tok s rest, stack =>
    if s = "&&" then
      match stack with
      | [] => .error "Malformed expression: missing left operand for \x27&&\x27"
      | left :: stack2 =>
        match evalNodes text2 rest [] with
        | .error e => .error e
        | .ok right => finalStack ((left && right) :: stack2)
    else if s = "||" then
      match stack with
      | [] => .error "Malformed expression: missing left operand for \x27||\x27"
      | left :: stack2 =>
        match evalNodes text2 rest [] with
        | .error e => .error e
        | .ok right => finalStack ((left || right) :: stack2)
    else
      evalNodes text2 rest ((containsSub s.data text2) :: stack)
  | .sub ns rest, stack =>
    match evalNodes text2 ns [] with
    | .error e => .error e
    | .ok b => evalNodes text2 rest (b :: stack)

/-- Embedding of `evaluate_tree`'s public entry: lower the text once and run
the token loop with an empty stack. -/
def evaluateTree (nodes : Node) (text : String) : Except String Bool :=
  evalNodes (strLower text).data nodes []

/-- Embedding of `match_search_string` (`parse.py` lines 124-139): parse the
expression, evaluate it against the text, and re-wrap any `ValueError` with
the expression context. -/
def matchSearchString (ss text : String) : Except String Bool :=
  match parseSearchString ss with
  | .error e => .error ("Error in SEARCH_STRING \x27" ++ ss ++ "\x27: " ++ e)
  | .ok tree =>
    match evaluateTree tree text with
    | .error e => .error ("Error in SEARCH_STRING \x27" ++ ss ++ "\x27: " ++ e)
    | .ok b => .ok b

/-! ## Ledger data model: `Transaction` / `Account` / `Statement`

These dataclasses live in `parsetrail.core.validation`, which is absent from
the source tree; their fields are reconstructed from the constructor calls in
the bundled plugins (`plugins/pdf_citicc_202506.py` and friends) and §3 of the
spec.  Amounts are embedded as exact rationals and dates as integers. -/

structure Transaction where
  transaction_date : Int
  posting_date : Int
  amount : Rat
  balance : Option Rat
  desc : String
deriving DecidableEq, Repr

structure Account where
  account_num : String
  start_balance : Rat
  end_balance : Rat
  transactions : List Transaction
deriving DecidableEq, Repr

/-- A Python value that can be handed around as a plugin identity: the routers
pass either a single name or (by mistake) the whole candidate list. -/
inductive PyKeyV where
  | s (v : String)
  | l (v : List String)
deriving DecidableEq, Repr

structure Statement where
  start_date : Int
  end_date : Int
  accounts : List Account
  fpath : Option String := none
  plugin_name : Option PyKeyV := none
deriving DecidableEq, Repr

/-- Modelled from the spec: `Account.sort_and_compute_balances` lives in
`parsetrail.core.validation`, absent from the source tree.  §4.4: "sorts an
account's transactions into canonical chronological order (ties broken by
original extraction order)".  Canonical chronological order is taken to be
ordering by `transaction_date`; the tie-breaking is realised by a stable
insertion sort (a stable sort is uniquely determined by its key order, so any
stable implementation gives the same list). -/
def insertTx (t : Transaction) : List Transaction → List Transaction
  | [] => [t]
  | u :: us =>
    if u.transaction_date ≤ t.transaction_date then u :: insertTx t us
    else t :: u :: us

/-- Stable sort by transaction date: insert the transactions one by one, each
after every already-placed transaction with an earlier-or-equal date. -/
def sortTx (l : List Transaction) : List Transaction :=
  l.foldl (fun acc t => insertTx t acc) []

/-- Modelled from the spec (§4.4): overwrite each transaction's balance with
the cumulative sum of the running balance plus all amounts up to and including
that transaction. -/
def computeBalances (bal : Rat) : List Transaction → List Transaction
  | [] => []
  | t :: ts => { t with balance := some (bal + t.amount) } :: computeBalances (bal + t.amount) ts

/-- Modelled from the spec: `sort_and_compute_balances` (§4.4 BalanceReconciler):
sort chronologically (stable) and recompute the running balance from
`start_balance`, regardless of plugin-supplied balances. -/
def Account.sort_and_compute_balances (a : Account) : Account :=
  { a with transactions := computeBalances a.start_balance (sortTx a.transactions) }

/-- Modelled from the spec: `validate_statement` lives in
`parsetrail.core.validation`, absent from the source tree.  §4.4
StatementValidator: at least one account, reconciled final balance within
tolerance of the declared ending balance, `start_date ≤ end_date`; returns a
list of human-readable defects, empty when valid. -/
def reconciledFinal (a : Account) : Rat :=
  match a.transactions.getLast? with
  | some t => t.balance.getD a.start_balance
  | none => a.start_balance

def validateStatement (s : Statement) : List String :=
  (if s.accounts.isEmpty then ["Statement has no accounts"] else []) ++
  (if s.start_date ≤ s.end_date then [] else ["Statement start date is after end date"]) ++
  s.accounts.foldr
    (fun a acc =>
      (if |reconciledFinal a - a.end_balance| ≤ (1 : Rat) / 100 then []
       else ["Account " ++ a.account_num ++ " final balance does not match declared end balance"]) ++ acc)
    []

/-! ## PluginRegistry: `load_plugin` / `PluginManager` (`plugins.py` lines 13-78)

The dynamic-import machinery is modelled by a `PluginFile` record carrying the
observable outcomes of each runtime probe: whether the module spec/loader is
available, whether executing the module raised, whether a `Parser` attribute
exists and implements `IParser`, and the values of the metadata class
variables.  `class_variables(IParser)`/`validate_parser` live in
`parsetrail.core.interfaces`, absent from the source tree, and are modelled
from spec §4.1: "checks, for each required field name, that
`getattr(PluginClass, field)` exists and is non-empty". -/

/-- Outcome of `Parser().parse(input_data)` on the input under consideration:
the plugin raises, returns a `Statement`, or returns something else. -/
inductive ParseOut where
  | stmt (s : Statement)
  | notStatement
deriving DecidableEq, Repr

instance instDecEqExcept {ε α : Type} [DecidableEq ε] [DecidableEq α] :
    DecidableEq (Except ε α) := fun x y =>
  match x, y with
  | .ok a, .ok b =>
    if h : a = b then .isTrue (by rw [h]) else .isFalse (by intro hc; cases hc; exact h rfl)
  | .error a, .error b =>
    if h : a = b then .isTrue (by rw [h]) else .isFalse (by intro hc; cases hc; exact h rfl)
  | .ok _, .error _ => .isFalse (by intro hc; cases hc)
  | .error _, .ok _ => .isFalse (by intro hc; cases hc)

structure ParserClass where
  PLUGIN_NAME : Option String
  VERSION : Option String
  SUFFIX : Option String
  COMPANY : Option String
  STATEMENT_TYPE : Option String
  SEARCH_STRING : Option String
  INSTRUCTIONS : Option String
  parseResult : Except String ParseOut
deriving DecidableEq, Repr

/-- The metadata dict `{var: getattr(ParserClass, var)} | {"FILENAME": ...}`
built by `load_plugin` after validation has ensured every field is present. -/
structure Metadata where
  PLUGIN_NAME : String
  VERSION : String
  SUFFIX : String
  COMPANY : String
  STATEMENT_TYPE : String
  SEARCH_STRING : String
  INSTRUCTIONS : String
  FILENAME : String
deriving DecidableEq, Repr

structure PluginFile where
  name : String
  stem : String
  specOk : Bool
  execErr : Option String
  parserClass : Option ParserClass
  isIParser : Bool
deriving DecidableEq, Repr

/-- Modelled from the spec: `validate_parser` + `class_variables(IParser)`
(`parsetrail.core.interfaces`, absent from src).  §4.1: every required
metadata field must exist and be non-empty; the required set is the seven
class variables the bundled plugins override. -/
def fieldOk : Option String → Bool
  | none => false
  | some s => s ≠ ""

def validateParserClass (pc : ParserClass) : Bool :=
  fieldOk pc.PLUGIN_NAME && fieldOk pc.VERSION && fieldOk pc.SUFFIX &&
  fieldOk pc.COMPANY && fieldOk pc.STATEMENT_TYPE && fieldOk pc.SEARCH_STRING &&
  fieldOk pc.INSTRUCTIONS

def mkMetadata (pc : ParserClass) (fname : String) : Metadata :=
  { PLUGIN_NAME := pc.PLUGIN_NAME.getD ""
    VERSION := pc.VERSION.getD ""
    SUFFIX := pc.SUFFIX.getD ""
    COMPANY := pc.COMPANY.getD ""
    STATEMENT_TYPE := pc.STATEMENT_TYPE.getD ""
    SEARCH_STRING := pc.SEARCH_STRING.getD ""
    INSTRUCTIONS := pc.INSTRUCTIONS.getD ""
    FILENAME := fname }

/-- Embedding of `load_plugin` (`plugins.py` lines 13-39): load the module,
require a `Parser` class implementing `IParser`, validate the required
metadata fields, and assemble the metadata dict.  Any failure raises. -/
def loadPlugin (f : PluginFile) : Except String (String × ParserClass × Metadata) :=
  if !f.specOk then .error ("Cannot load module from " ++ f.name)
  else
    match f.execErr with
    | some e => .error e
    | none =>
      match f.parserClass with
      | none => .error ("No \x27Parser\x27 class found in " ++ f.name)
      | some pc =>
        if !f.isIParser then .error ("Plugin " ++ f.stem ++ " must implement IParser")
        else if !validateParserClass pc then
          .error ("Plugin " ++ f.stem ++ " is missing a required metadata field")
        else .ok (f.stem, pc, mkMetadata pc f.name)

/-- Python-dict lookup on an insertion-ordered association list. -/
def dictGet (m : List (String × A)) (k : String) : Option A :=
  (m.find? (fun p => p.1 = k)).map (fun p => p.2)

/-- Python-dict assignment: overwrite in place if the key exists, else append. -/
def dictInsert (m : List (String × A)) (k : String) (v : A) : List (String × A) :=
  if m.any (fun p => p.1 = k) then m.map (fun p => if p.1 = k then (k, v) else p)
  else m ++ [(k, v)]

/-- The `PluginManager`'s in-memory index: `self.plugins` and `self.metadata`. -/
structure Registry where
  plugins : List (String × ParserClass)
  metadata : List (String × Metadata)
deriving DecidableEq, Repr

def Registry.empty : Registry := { plugins := [], metadata := [] }

/-- One iteration of the `load_plugins` loop (`plugins.py` lines 55-63): a
successful `load_plugin` stores the class and metadata; any exception is
logged and skipped. -/
def loadStep (reg : Registry) (f : PluginFile) : Registry :=
  match loadPlugin f with
  | .ok (id, pc, md) =>
    { plugins := dictInsert reg.plugins id pc, metadata := dictInsert reg.metadata id md }
  | .error _ => reg

/-- Embedding of `PluginManager.load_plugins` (`plugins.py` lines 47-69): the
index is reset to empty and then populated one artifact at a time. -/
def loadPlugins (files : List PluginFile) : Registry :=
  files.foldl loadStep Registry.empty

/-- The successive registry states an observer of the `PluginManager` can see
during `load_plugins`: first the freshly cleared index (`self.plugins = {}`;
`self.metadata = {}`), then the index after each artifact of the scan. -/
def loadStates (st : Registry) : List PluginFile → List Registry
  | [] => []
  | f :: rest => loadStep st f :: loadStates (loadStep st f) rest

def loadTrace (files : List PluginFile) : List Registry :=
  Registry.empty :: loadStates Registry.empty files

/-- Embedding of `PluginManager.get_parser` (`plugins.py` lines 71-78):
`self.plugins.get(plugin_id)`.  A Python `dict.get` hashes its key first, so a
`list` key raises `TypeError: unhashable type: 'list'`; a missing (string) key
raises `ImportError`. -/
def getParser (reg : Registry) (key : PyKeyV) : Except String ParserClass :=
  match key with
  | .l _ => .error "TypeError: unhashable type: \x27list\x27"
  | .s id =>
    match dictGet reg.plugins id with
    | none => .error ("Plugin \x27" ++ id ++ "\x27 not loaded.")
    | some pc => .ok pc

/-! ## Routers: `BaseRouter` / `PDFRouter` / `CSVRouter` / `XLSXRouter`
(`parse.py` lines 145-365) -/

/-- Embedding of the loop body of `BaseRouter.select_parser` (`parse.py` lines
180-186): walk the metadata index in insertion order, skip entries whose
`SUFFIX` differs from a non-empty filter, and evaluate the match expression of
every remaining entry (a `ValueError` from the matcher propagates). -/
def selectLoop (text suffix : String) : List (String × Metadata) → Except String (List String)
  | [] => .ok []
  | (name, md) :: rest =>
    if suffix ≠ "" ∧ md.SUFFIX ≠ suffix then selectLoop text suffix rest
    else
      match matchSearchString md.SEARCH_STRING text with
      | .error e => .error e
      | .ok b =>
        match selectLoop text suffix rest with
        | .error e => .error e
        | .ok others => .ok (if b then name :: others else others)

/-- Embedding of `BaseRouter.select_parser` (`parse.py` lines 167-191): the
collected list is returned as-is (a multiple match is only logged); an empty
list raises `ValueError("Statement type not recognized.")`. -/
def selectParser (metadata : List (String × Metadata)) (text suffix : String) :
    Except String (List String) :=
  match selectLoop text suffix metadata with
  | .error e => .error e
  | .ok [] => .error "Statement type not recognized."
  | .ok plugins => .ok plugins

/-- Embedding of `BaseRouter.run_parser` (`parse.py` lines 218-232): run the
plugin's `parse` and raise `TypeError` unless it returned a `Statement`.
(`parser.__name__` is always `Parser` for a loaded plugin.) -/
def runParserClass (pc : ParserClass) : Except String Statement :=
  match pc.parseResult with
  | .error e => .error e
  | .ok (.stmt s) => .ok s
  | .ok .notStatement => .error "Parser did not return a Statement. Check its parse() method."

/-- `Statement.add_metadata` (in `parsetrail.core.validation`, absent from
src).  Modelled from the spec §4.3: "attach provenance metadata (source name +
plugin identity)". -/
def addMetadata (s : Statement) (fpath : String) (key : PyKeyV) : Statement :=
  { s with fpath := some fpath, plugin_name := some key }

/-- Embedding of `BaseRouter.extract_statement` (`parse.py` lines 193-216):
resolve the parser from the registry, run it, reconcile every account's
balances, attach provenance, validate; a non-empty defect list raises
`ValidationError`. -/
def extractStatement (reg : Registry) (key : PyKeyV) (fpath : String) :
    Except String Statement :=
  match getParser reg key with
  | .error e => .error e
  | .ok pc =>
    match runParserClass pc with
    | .error e => .error e
    | .ok st =>
      let st1 := { st with accounts := st.accounts.map Account.sort_and_compute_balances }
      let st2 := addMetadata st1 fpath key
      let errs := validateStatement st2
      if errs.isEmpty then .ok st2
      else .error (String.intercalate "\n" errs)

/-- Embedding of the fallback loop of `PDFRouter.parse` (`parse.py` lines
263-274): try each candidate in order; a success returns immediately; a
failure is recorded as `f"{plugin}: {e}"`; failing on the last candidate
raises the aggregated message.  An initially empty candidate list would fall
off the end of the Python `for` loop and return `None`, hence the `Option`. -/
def pdfLoop (reg : Registry) (fpath : String) :
    List String → List String → Except String (Option Statement)
  | [], _ => .ok none
  | p :: rest, errs =>
    match extractStatement reg (.s p) fpath with
    | .ok s => .ok (some s)
    | .error e =>
      let errs2 := errs ++ [p ++ ": " ++ e]
      if rest.isEmpty then
        .error ("Failed to parse " ++ fpath ++ ": " ++ String.intercalate "; " errs2)
      else pdfLoop reg fpath rest errs2

/-- Embedding of `PDFRouter.parse` (`parse.py` lines 252-274); `text` stands
for `reader.extract_text_simple()` on the opened PDF. -/
def pdfParse (reg : Registry) (text fpath : String) : Except String (Option Statement) :=
  match selectParser reg.metadata text ".pdf" with
  | .error e => .error e
  | .ok plugins => pdfLoop reg fpath plugins []

/-- Embedding of `CSVRouter.parse` (`parse.py` lines 290-304); `text` stands
for the decoded CSV contents.  Note that the *whole list* returned by
`select_parser` is handed to `extract_statement` as the plugin identity. -/
def csvParse (reg : Registry) (text fpath : String) : Except String Statement :=
  match selectParser reg.metadata text ".csv" with
  | .error e => .error e
  | .ok plugins => extractStatement reg (.l plugins) fpath

/-- Embedding of `XLSXRouter.parse` (`parse.py` lines 327-338); `text` stands
for the workbook's plain-text rendering.  Like the CSV router it hands the
whole candidate list to `extract_statement`. -/
def xlsxParse (reg : Registry) (text fpath : String) : Except String Statement :=
  match selectParser reg.metadata text ".xlsx" with
  | .error e => .error e
  | .ok plugins => extractStatement reg (.l plugins) fpath

/-- The three router classes registered in the `ROUTERS` dict. -/
inductive RouterKind where
  | pdf
  | csv
  | xlsx
deriving DecidableEq, Repr

/-- `register_router` (`parse.py` lines 358-359): plain dict assignment. -/
def registerRouter (m : List (String × RouterKind)) (suffix : String) (r : RouterKind) :
    List (String × RouterKind) :=
  dictInsert m suffix r

/-- The `ROUTERS` registry after the three `register_router` calls
(`parse.py` lines 363-365). -/
def ROUTERS : List (String × RouterKind) :=
  registerRouter (registerRouter (registerRouter [] ".pdf" .pdf) ".csv" .csv) ".xlsx" .xlsx

/-- The dispatch decision of `parse_any` (`parse.py` lines 390-394): route by
lower-cased suffix, or raise `ValueError` for an unknown suffix. -/
def parseAnyRouter (suffix : String) : Except String RouterKind :=
  match dictGet ROUTERS (strLower suffix) with
  | some r => .ok r
  | none => .error ("Unsupported file suffix: " ++ strLower suffix)

/-! ## Concrete fixtures used by witnesses and counterexamples -/

/-- A well-formed plugin class with the given identity, suffix, match
expression and extraction outcome; the remaining required fields hold
non-empty placeholder values. -/
def pcMk (name suffix search : String) (res : Except String ParseOut) : ParserClass :=
  { PLUGIN_NAME := some name, VERSION := some "0.1.0", SUFFIX := some suffix,
    COMPANY := some "Co", STATEMENT_TYPE := some "T", SEARCH_STRING := some search,
    INSTRUCTIONS := some "i", parseResult := res }

/-- A plugin artifact whose dynamic import succeeds and exposes `pc`. -/
def fileMk (stem : String) (pc : ParserClass) : PluginFile :=
  { name := stem ++ ".pyc", stem := stem, specOk := true, execErr := none,
    parserClass := some pc, isIParser := true }

def txA : Transaction :=
  { transaction_date := 0, posting_date := 0, amount := 5, balance := none, desc := "x" }

def acctA : Account :=
  { account_num := "1234", start_balance := 0, end_balance := 5, transactions := [txA] }

/-- A statement that passes `validateStatement` after reconciliation. -/
def stmtOk : Statement :=
  { start_date := 0, end_date := 1, accounts := [acctA] }

/-- The C6 claim's characterization of a match: the plugin's stored expression
evaluates to true on the text (an erroring expression counts as no match). -/
def matchesBool (md : Metadata) (text : String) : Bool :=
  match matchSearchString md.SEARCH_STRING text with
  | .ok b => b
  | .error _ => false

/-- The C6 claim's characterization of `select_parser`'s result: the names of
exactly those registry entries, in registry order, whose declared suffix
equals the filter and whose match expression matches the text. -/
def selectSpec (metadata : List (String × Metadata)) (text suffix : String) : List String :=
  (metadata.filter (fun p => p.2.SUFFIX == suffix && matchesBool p.2 text)).map Prod.fst

/-- A transaction with its balance field cleared, used to compare transaction
lists up to the balances that reconciliation overwrites. -/
def stripBalance (t : Transaction) : Transaction := { t with balance := none }

/-- Registry with a single CSV plugin whose extraction would succeed. -/
def regCsv1 : Registry :=
  loadPlugins [fileMk "csv_bank" (pcMk "csv_bank" ".csv" "bank" (.ok (.stmt stmtOk)))]

/-- Registry with a single spreadsheet plugin whose extraction would succeed. -/
def regXlsx1 : Registry :=
  loadPlugins [fileMk "xlsx_bank" (pcMk "xlsx_bank" ".xlsx" "bank" (.ok (.stmt stmtOk)))]

/-- Registry with two PDF plugins matching the same text: the first one's
extraction raises, the second one's succeeds. -/
def regPdf2 : Registry :=
  loadPlugins [fileMk "pdf_one" (pcMk "pdf_one" ".pdf" "bank" (.error "boom")),
               fileMk "pdf_two" (pcMk "pdf_two" ".pdf" "bank" (.ok (.stmt stmtOk)))]

def txARec : Transaction :=
  { transaction_date := 0, posting_date := 0, amount := 5, balance := some 5, desc := "x" }

def acctRec : Account :=
  { account_num := "1234", start_balance := 0, end_balance := 5, transactions := [txARec] }

/-- `stmtOk` as returned by a successful extraction through the PDF router:
balances reconciled and provenance attached. -/
def stmtOkParsed : Statement :=
  { start_date := 0, end_date := 1, accounts := [acctRec],
    fpath := some "f.pdf", plugin_name := some (.s "pdf_two") }

/-- A plugin whose stored match expression `(` is malformed but whose required
metadata fields are all non-empty. -/
def pcBadExpr : ParserClass := pcMk "pdf_bad" ".pdf" "(" (.error "boom")

def fileBadExpr : PluginFile := fileMk "pdf_bad" pcBadExpr

def regBadExpr : Registry := loadPlugins [fileBadExpr]

/-- A contract-satisfying plugin declaring a suffix no router knows. -/
def fileDocx : PluginFile := fileMk "docx_plug" (pcMk "docx_plug" ".docx" "zeta" (.error "e"))

/-- An artifact whose `Parser` class lacks the required `PLUGIN_NAME` field. -/
def fileNoName : PluginFile :=
  fileMk "bad_meta" { pcMk "bad_meta" ".pdf" "bank" (.error "e") with PLUGIN_NAME := none }

def filePdfB : PluginFile := fileMk "pdf_b" (pcMk "pdf_b" ".pdf" "bravo" (.error "e"))

def filePdfC : PluginFile := fileMk "pdf_c" (pcMk "pdf_c" ".pdf" "charlie" (.error "e"))

/-- The registry as loaded before a reload begins. -/
def regOldA : Registry := loadPlugins [fileMk "pdf_a" (pcMk "pdf_a" ".pdf" "alpha" (.error "e"))]

def txW1 : Transaction :=
  { transaction_date := 5, posting_date := 5, amount := 2, balance := some 99, desc := "w1" }

def txW2 : Transaction :=
  { transaction_date := 3, posting_date := 3, amount := 1, balance := none, desc := "w2" }

/-- An account whose transactions arrive out of order with bogus balances. -/
def acctW : Account :=
  { account_num := "9", start_balance := 10, end_balance := 13, transactions := [txW1, txW2] }

/-! ## Claim C2: quoted-literal matching -/

/-- Claim C2 counterexample: the matcher applied to the expression
`"a" && "b"` does not return true on `"a and b present"` and does not return
false on `"only a"` — it raises `ValueError` (malformed-expression) on both,
because the space between a quoted literal and the operator is tokenized as a
stand-alone literal token, leaving two values on the evaluation stack. -/
theorem c2_counterexample :
    (matchSearchString "\"a\" && \"b\"" "a and b present").isOk = false ∧
    (matchSearchString "\"a\" && \"b\"" "only a").isOk = false := by
  decide

/-- Claim C2 amended: evaluating `"a" && "b"` raises a malformed-expression
`ValueError` for every text (never the booleans the claim promises); writing
the expression without spaces, `"a"&&"b"` evaluates to the conjunction of the
two containment tests, where each quoted literal is matched case-insensitively
*with its quote characters included*, not by its unquoted content; the
unquoted form `a&&b` matches by containment of the bare literals. -/
theorem c2_quoted_literal_matching (text : String) :
    (matchSearchString "\"a\" && \"b\"" text).isOk = false ∧
    matchSearchString "\"a\"&&\"b\"" text =
      .ok (containsSub "\"a\"".data (strLower text).data &&
           containsSub "\"b\"".data (strLower text).data) ∧
    matchSearchString "a&&b" text =
      .ok (containsSub "a".data (strLower text).data &&
           containsSub "b".data (strLower text).data) := by
  refine ⟨?_, ?_, ?_⟩
  · have h1 : parseSearchString "\"a\" && \"b\"" =
        .ok (Node.tok "\"a\"" (Node.tok " " (Node.tok "&&" (Node.tok " \"b\"" .nil)))) := rfl
    simp only [matchSearchString, h1, evaluateTree]
    cases hA : containsSub "\"a\"".data (strLower text).data <;>
      cases hS : containsSub " ".data (strLower text).data <;>
      cases hB : containsSub " \"b\"".data (strLower text).data <;>
      simp [evalNodes, finalStack, hA, hS, hB, Except.isOk, Except.toBool]
  · have h1 : parseSearchString "\"a\"&&\"b\"" =
        .ok (Node.tok "\"a\"" (Node.tok "&&" (Node.tok "\"b\"" .nil))) := rfl
    simp [matchSearchString, h1, evaluateTree, evalNodes, finalStack]
  · have h1 : parseSearchString "a&&b" =
        .ok (Node.tok "a" (Node.tok "&&" (Node.tok "b" .nil))) := rfl
    simp [matchSearchString, h1, evaluateTree, evalNodes, finalStack]

/-! ## Claim C4: right-associativity of the evaluator -/

/-- Claim C4 counterexample: `a && b || c` and `a && (b || c)` do not agree on
every text: on the text `"a b c"` the first returns true while the second
raises `ValueError` (the space before the parenthesis becomes its own literal
token, leaving two values on the evaluation stack). -/
theorem c4_counterexample :
    matchSearchString "a && b || c" "a b c" = .ok true ∧
    (matchSearchString "a && (b || c)" "a b c").isOk = false := by
  decide

/-- Claim C4 amended: the evaluator is right-associative over the remainder of
the token stream — written without whitespace, `a&&b||c` and `a&&(b||c)`
evaluate identically for every text, namely to `a ∧ (b ∨ c)` over the three
containment tests; but the spaced form `a && (b || c)` raises a
malformed-expression `ValueError` for every text, because the space before the
parenthesis is tokenized as a stand-alone literal token. -/
theorem c4_right_associativity (text : String) :
    matchSearchString "a&&b||c" text = matchSearchString "a&&(b||c)" text ∧
    matchSearchString "a&&b||c" text =
      .ok (containsSub "a".data (strLower text).data &&
           (containsSub "b".data (strLower text).data ||
            containsSub "c".data (strLower text).data)) ∧
    (matchSearchString "a && (b || c)" text).isOk = false := by
  have h1 : parseSearchString "a&&b||c" =
      .ok (Node.tok "a" (Node.tok "&&" (Node.tok "b" (Node.tok "||" (Node.tok "c" .nil))))) := rfl
  have h2 : parseSearchString "a&&(b||c)" =
      .ok (Node.tok "a" (Node.tok "&&"
        (Node.sub (Node.tok "b" (Node.tok "||" (Node.tok "c" .nil))) .nil))) := rfl
  have h3 : parseSearchString "a && (b || c)" =
      .ok (Node.tok "a " (Node.tok "&&" (Node.tok " "
        (Node.sub (Node.tok "b " (Node.tok "||" (Node.tok " c" .nil))) .nil)))) := rfl
  refine ⟨?_, ?_, ?_⟩
  · simp [matchSearchString, h1, h2, evaluateTree, evalNodes, finalStack]
  · simp [matchSearchString, h1, evaluateTree, evalNodes, finalStack]
  · simp only [matchSearchString, h3, evaluateTree]
    cases hA : containsSub "a ".data (strLower text).data <;>
      cases hS : containsSub " ".data (strLower text).data <;>
      cases hB : containsSub "b ".data (strLower text).data <;>
      cases hC : containsSub " c".data (strLower text).data <;>
      simp [evalNodes, finalStack, hA, hS, hB, hC, Except.isOk, Except.toBool]

/-! ## Claim C1: single-candidate routing for CSV / XLSX -/

/-- Claim C1 evaluated at its failing input: in a registry where exactly one
plugin matches the CSV (resp. XLSX) text, `CSVRouter.parse` and
`XLSXRouter.parse` do not return the extracted `Statement` — they raise
`TypeError`, because the whole one-element candidate list returned by
`select_parser` is passed as the plugin identity, and `dict.get` cannot hash a
`list`.  The extraction itself would have succeeded (the plugin's `parse`
returns a valid statement), so the single-candidate policy is broken even in
the exactly-one-match case. -/
theorem c1_single_candidate_eval :
    selectParser regCsv1.metadata "bank statement" ".csv" = .ok ["csv_bank"] ∧
    csvParse regCsv1 "bank statement" "s.csv" =
      .error "TypeError: unhashable type: \x27list\x27" ∧
    selectParser regXlsx1.metadata "bank sheet" ".xlsx" = .ok ["xlsx_bank"] ∧
    xlsxParse regXlsx1 "bank sheet" "s.xlsx" =
      .error "TypeError: unhashable type: \x27list\x27" := by
  decide

/-! ## Claim C3: malformed match expressions -/

/-- Claim C3 counterexample: a plugin whose stored match expression is the
malformed `(` is loaded into the registry index (registry load does not
inspect the expression), and `select_parser` over that loaded registry then
raises the malformed-expression `ValueError` at match time instead of never
raising. -/
theorem c3_counterexample :
    (dictGet regBadExpr.metadata "pdf_bad").isSome = true ∧
    selectParser regBadExpr.metadata "statement text" ".pdf" =
      .error "Error in SEARCH_STRING \x27(\x27: Unmatched opening parenthesis" := by
  decide

/-- Claim C3 amended: registry load validates only that the required metadata
fields are present and non-empty, so a plugin with a malformed match
expression loads successfully; the malformed-expression error is instead
raised at match time, wrapped with the expression context, and propagates out
of `select_parser` to its callers. -/
theorem c3_malformed_not_load_checked (f : PluginFile) (pc : ParserClass) (text e : String)
    (hspec : f.specOk = true) (hexec : f.execErr = none)
    (hpc : f.parserClass = some pc) (hip : f.isIParser = true)
    (hval : validateParserClass pc = true)
    (hmatch : matchSearchString (pc.SEARCH_STRING.getD "") text = .error e) :
    loadPlugin f = .ok (f.stem, pc, mkMetadata pc f.name) ∧
    selectParser (loadPlugins [f]).metadata text "" = .error e := by
  have hload : loadPlugin f = .ok (f.stem, pc, mkMetadata pc f.name) := by
    simp [loadPlugin, hspec, hexec, hpc, hip, hval]
  refine ⟨hload, ?_⟩
  have hreg : (loadPlugins [f]).metadata = [(f.stem, mkMetadata pc f.name)] := by
    simp [loadPlugins, loadStep, hload, Registry.empty, dictInsert]
  rw [selectParser.eq_def, hreg]
  have hmd : (mkMetadata pc f.name).SEARCH_STRING = pc.SEARCH_STRING.getD "" := rfl
  simp [selectLoop, hmd, hmatch]

/-- Witness for the amended C3 at the concrete malformed plugin `pdf_bad`. -/
theorem c3_malformed_not_load_checked_witness :
    loadPlugin fileBadExpr = .ok ("pdf_bad", pcBadExpr, mkMetadata pcBadExpr "pdf_bad.pyc") ∧
    selectParser (loadPlugins [fileBadExpr]).metadata "statement text" "" =
      .error "Error in SEARCH_STRING \x27(\x27: Unmatched opening parenthesis" := by
  exact c3_malformed_not_load_checked fileBadExpr pcBadExpr "statement text"
    "Error in SEARCH_STRING \x27(\x27: Unmatched opening parenthesis"
    (by decide) (by decide) (by decide) (by decide) (by decide) (by decide)

/-! ## Claim C6: the `select_parser` contract -/

/-- Helper: under a non-empty suffix filter, when every considered plugin's
expression evaluates cleanly, the collection loop returns exactly the
claim-side characterization. -/
theorem selectLoop_eq_selectSpec (text suffix : String) (hs : suffix ≠ "") :
    ∀ metadata : List (String × Metadata),
      (∀ p ∈ metadata, p.2.SUFFIX = suffix →
        (matchSearchString p.2.SEARCH_STRING text).isOk = true) →
      selectLoop text suffix metadata = .ok (selectSpec metadata text suffix) := by
  intro metadata
  induction metadata with
  | nil => intro _; simp [selectLoop, selectSpec]
  | cons p rest ih =>
    intro hok
    obtain ⟨name, md⟩ := p
    have hrest : ∀ q ∈ rest, q.2.SUFFIX = suffix →
        (matchSearchString q.2.SEARCH_STRING text).isOk = true := by
      intro q hq hqs
      exact hok q (List.mem_cons_of_mem _ hq) hqs
    by_cases hsuf : md.SUFFIX = suffix
    · have hok0 : (matchSearchString md.SEARCH_STRING text).isOk = true :=
        hok (name, md) (List.mem_cons_self _ _) hsuf
      obtain ⟨b, hb⟩ : ∃ b, matchSearchString md.SEARCH_STRING text = .ok b := by
        cases h : matchSearchString md.SEARCH_STRING text with
        | ok b => exact ⟨b, rfl⟩
        | error e => rw [h] at hok0; simp [Except.isOk, Except.toBool] at hok0
      cases b <;>
        simp [selectLoop, hsuf, hb, ih hrest, selectSpec, matchesBool, List.filter_cons]
    · simp [selectLoop, hsuf, hs, ih hrest, selectSpec, matchesBool, hsuf]

/-- Claim C6 amended: for every registry, text, and non-empty suffix filter,
provided every registry entry that passes the suffix filter has a match
expression that evaluates without error on the text, `select_parser` returns
exactly the ordered list of names of the entries whose declared suffix equals
the filter and whose expression matches, and fails with the unrecognized
error when that list is empty.  (The proviso is forced by the counterexample:
a loaded plugin with a malformed expression makes `select_parser` raise a
different error instead.) -/
theorem c6_select_contract (metadata : List (String × Metadata)) (text suffix : String)
    (hs : suffix ≠ "")
    (hok : ∀ p ∈ metadata, p.2.SUFFIX = suffix →
      (matchSearchString p.2.SEARCH_STRING text).isOk = true) :
    selectParser metadata text suffix =
      if selectSpec metadata text suffix = [] then .error "Statement type not recognized."
      else .ok (selectSpec metadata text suffix) := by
  rw [selectParser.eq_def, selectLoop_eq_selectSpec text suffix hs metadata hok]
  cases h : selectSpec metadata text suffix with
  | nil => simp
  | cons a l => simp

/-- Witness for C6 at a registry with two matching PDF plugins and one
non-matching one: both matching names are returned, in registry order. -/
theorem c6_select_contract_witness :
    selectParser regPdf2.metadata "bank text" ".pdf" = .ok ["pdf_one", "pdf_two"] := by
  have h := c6_select_contract regPdf2.metadata "bank text" ".pdf" (by decide) (by decide)
  rw [h]
  decide

/-- Claim C6 counterexample: over a loaded registry containing a plugin whose
stored match expression is malformed, `select_parser` neither returns a list
of matches nor fails with the unrecognized error — it raises the wrapped
malformed-expression error. -/
theorem c6_counterexample :
    (selectParser regBadExpr.metadata "statement text" ".pdf").isOk = false ∧
    selectParser regBadExpr.metadata "statement text" ".pdf" ≠
      .error "Statement type not recognized." := by
  decide

/-! ## Claim C5: the PDF router's fallback chain -/

/-- Helper: when every candidate fails, the fallback loop aggregates every
attempted plugin with its error text, in order, on top of the already
recorded errors. -/
theorem pdfLoop_all_fail (reg : Registry) (fpath : String) (ef : String → String) :
    ∀ (plugins : List String) (errs : List String), plugins ≠ [] →
      (∀ q ∈ plugins, extractStatement reg (.s q) fpath = .error (ef q)) →
      pdfLoop reg fpath plugins errs =
        .error ("Failed to parse " ++ fpath ++ ": " ++
          String.intercalate "; " (errs ++ plugins.map (fun q => q ++ ": " ++ ef q))) := by
  intro plugins
  induction plugins with
  | nil => intro errs h; exact absurd rfl h
  | cons p rest ih =>
    intro errs _ hall
    have hp : extractStatement reg (.s p) fpath = .error (ef p) :=
      hall p (List.mem_cons_self _ _)
    cases hrest : rest with
    | nil => simp [pdfLoop, hp]
    | cons r rest2 =>
      have hne2 : rest ≠ [] := by rw [hrest]; exact List.cons_ne_nil _ _
      have hall2 : ∀ q ∈ rest, extractStatement reg (.s q) fpath = .error (ef q) := by
        intro q hq
        exact hall q (List.mem_cons_of_mem _ hq)
      rw [← hrest]
      simp only [pdfLoop, hp]
      rw [if_neg (by simpa using hne2)]
      rw [ih (errs ++ [p ++ ": " ++ ef p]) hne2 hall2]
      simp

/-- Helper: the first candidate whose extraction succeeds determines the
result; candidates after it are never consulted. -/
theorem pdfLoop_first_success (reg : Registry) (fpath : String) (s : Statement) :
    ∀ (pre : List String) (p : String) (post : List String) (errs : List String),
      (∀ q ∈ pre, (extractStatement reg (.s q) fpath).isOk = false) →
      extractStatement reg (.s p) fpath = .ok s →
      pdfLoop reg fpath (pre ++ p :: post) errs = .ok (some s) := by
  intro pre
  induction pre with
  | nil =>
    intro p post errs _ hp
    simp [pdfLoop, hp]
  | cons q pre2 ih =>
    intro p post errs hpre hp
    have hq : (extractStatement reg (.s q) fpath).isOk = false :=
      hpre q (List.mem_cons_self _ _)
    obtain ⟨e, he⟩ : ∃ e, extractStatement reg (.s q) fpath = .error e := by
      cases h : extractStatement reg (.s q) fpath with
      | ok v => rw [h] at hq; simp [Except.isOk, Except.toBool] at hq
      | error e => exact ⟨e, rfl⟩
    have hpre2 : ∀ r ∈ pre2, (extractStatement reg (.s r) fpath).isOk = false := by
      intro r hr
      exact hpre r (List.mem_cons_of_mem _ hr)
    simp only [List.cons_append, pdfLoop, he]
    rw [if_neg (by simp)]
    exact ih p post _ hpre2 hp

/-- Claim C5: under the PDF router's fallback-chain policy the candidates
returned by `select_parser` are tried exactly in order: if every candidate
before some plugin fails and that plugin's extraction succeeds, the router
returns its statement without consulting the remaining candidates (the
conclusion holds for every tail `post`); and if every candidate fails, the
router fails with the single aggregated error naming every attempted plugin
together with its error text, in order. -/
theorem c5_pdf_fallback_chain (reg : Registry) (text fpath : String) (plugins : List String)
    (hsel : selectParser reg.metadata text ".pdf" = .ok plugins) :
    (∀ pre p post s, plugins = pre ++ p :: post →
      (∀ q ∈ pre, (extractStatement reg (.s q) fpath).isOk = false) →
      extractStatement reg (.s p) fpath = .ok s →
      pdfParse reg text fpath = .ok (some s)) ∧
    (∀ ef : String → String, plugins ≠ [] →
      (∀ q ∈ plugins, extractStatement reg (.s q) fpath = .error (ef q)) →
      pdfParse reg text fpath =
        .error ("Failed to parse " ++ fpath ++ ": " ++
          String.intercalate "; " (plugins.map (fun q => q ++ ": " ++ ef q)))) := by
  constructor
  · intro pre p post s hsplit hpre hp
    rw [pdfParse.eq_def, hsel, hsplit]
    exact pdfLoop_first_success reg fpath s pre p post [] hpre hp
  · intro ef hne hall
    rw [pdfParse.eq_def, hsel]
    have h := pdfLoop_all_fail reg fpath ef plugins [] hne hall
    simpa using h

/-- Witness for C5: in the two-candidate registry the first candidate's
extraction raises, the second succeeds, and the router returns the second
plugin's reconciled statement. -/
theorem c5_pdf_fallback_chain_witness :
    pdfParse regPdf2 "bank text" "f.pdf" = .ok (some stmtOkParsed) := by
  have hp : extractStatement regPdf2 (.s "pdf_two") "f.pdf" = .ok stmtOkParsed := by
    have h1 : getParser regPdf2 (.s "pdf_two") =
        .ok (pcMk "pdf_two" ".pdf" "bank" (.ok (.stmt stmtOk))) := by decide
    rw [extractStatement.eq_def, h1]
    norm_num [runParserClass, pcMk, stmtOk, acctA, txA, Account.sort_and_compute_balances,
      sortTx, insertTx, computeBalances, addMetadata, validateStatement, reconciledFinal,
      stmtOkParsed, acctRec, txARec, List.getLast?]
  exact (c5_pdf_fallback_chain regPdf2 "bank text" "f.pdf" ["pdf_one", "pdf_two"]
      (by decide)).1
    ["pdf_one"] "pdf_two" [] stmtOkParsed rfl (by decide) hp

/-! ## Claim C8: per-artifact load failures are skipped -/

/-- Replacing the entries keyed `k` finds the replacement, provided some entry
is keyed `k`. -/
theorem find_map_replace_self {A : Type} (k : String) (v : A) :
    ∀ m : List (String × A), m.any (fun p => p.1 = k) = true →
      (m.map (fun p => if p.1 = k then (k, v) else p)).find? (fun p => p.1 = k) =
        some (k, v) := by
  intro m
  induction m with
  | nil => intro h; simp at h
  | cons p rest ih =>
    intro hany
    by_cases hp : p.1 = k
    · rw [List.map_cons, if_pos hp, List.find?_cons_of_pos _ (by simp)]
    · have hrest : rest.any (fun q => q.1 = k) = true := by
        simp [List.any_cons, hp] at hany
        simpa using hany
      rw [List.map_cons, if_neg hp, List.find?_cons_of_neg _ (by simpa using hp)]
      exact ih hrest

/-- Appending a `k`-keyed entry finds it, provided no earlier entry is keyed
`k`. -/
theorem find_append_self {A : Type} (k : String) (v : A) :
    ∀ m : List (String × A), m.any (fun p => p.1 = k) = false →
      (m ++ [(k, v)]).find? (fun p => p.1 = k) = some (k, v) := by
  intro m
  induction m with
  | nil => intro _; rw [List.nil_append, List.find?_cons_of_pos _ (by simp)]
  | cons p rest ih =>
    intro hany
    simp only [List.any_cons, Bool.or_eq_false_iff, decide_eq_false_iff_not] at hany
    rw [List.cons_append, List.find?_cons_of_neg _ (by simpa using hany.1)]
    exact ih (by simpa using hany.2)

/-- Inserting a key makes it present. -/
theorem dictGet_insert_self {A : Type} (m : List (String × A)) (k : String) (v : A) :
    dictGet (dictInsert m k v) k = some v := by
  rw [dictInsert.eq_def]
  cases hany : m.any (fun p => p.1 = k) with
  | true =>
    have h2 := find_map_replace_self k v m hany
    simp [dictGet, h2]
  | false =>
    have h2 := find_append_self k v m hany
    simp [dictGet, h2]

/-- Replacing the entries keyed `k2` does not affect a search for `k ≠ k2`. -/
theorem find_map_replace_ne {A : Type} (k k2 : String) (v : A) (h : k ≠ k2) :
    ∀ m : List (String × A),
      (m.map (fun p => if p.1 = k2 then (k2, v) else p)).find? (fun p => p.1 = k) =
        m.find? (fun p => p.1 = k) := by
  intro m
  induction m with
  | nil => simp
  | cons p rest ih =>
    by_cases hp : p.1 = k2
    · have hpk : ¬ p.1 = k := by
        intro hc
        exact h (by rw [← hc, hp])
      rw [List.map_cons, if_pos hp, List.find?_cons_of_neg _ (by simpa using Ne.symm h),
        List.find?_cons_of_neg _ (by simpa using hpk)]
      exact ih
    · by_cases hpk : p.1 = k
      · rw [List.map_cons, if_neg hp, List.find?_cons_of_pos _ (by simpa using hpk),
          List.find?_cons_of_pos _ (by simpa using hpk)]
      · rw [List.map_cons, if_neg hp, List.find?_cons_of_neg _ (by simpa using hpk),
          List.find?_cons_of_neg _ (by simpa using hpk)]
        exact ih

/-- Appending an entry keyed `k2 ≠ k` does not affect a search for `k`. -/
theorem find_append_ne {A : Type} (k k2 : String) (v : A) (h : k ≠ k2) :
    ∀ m : List (String × A),
      (m ++ [(k2, v)]).find? (fun p => p.1 = k) = m.find? (fun p => p.1 = k) := by
  intro m
  induction m with
  | nil =>
    rw [List.nil_append, List.find?_cons_of_neg _ (by simpa using Ne.symm h)]
  | cons p rest ih =>
    by_cases hpk : p.1 = k
    · rw [List.cons_append, List.find?_cons_of_pos _ (by simpa using hpk),
        List.find?_cons_of_pos _ (by simpa using hpk)]
    · rw [List.cons_append, List.find?_cons_of_neg _ (by simpa using hpk),
        List.find?_cons_of_neg _ (by simpa using hpk)]
      exact ih

/-- Inserting a different key leaves a lookup unchanged. -/
theorem dictGet_insert_ne {A : Type} (m : List (String × A)) (k k2 : String) (v : A)
    (h : k ≠ k2) : dictGet (dictInsert m k2 v) k = dictGet m k := by
  rw [dictInsert.eq_def]
  cases hany : m.any (fun p => p.1 = k2) with
  | true =>
    have h2 := find_map_replace_ne k k2 v h m
    simp [dictGet, h2]
  | false =>
    have h2 := find_append_ne k k2 v h m
    simp [dictGet, h2]

/-- An existing key survives any insertion. -/
theorem dictGet_insert_isSome {A : Type} (m : List (String × A)) (k k2 : String) (v : A)
    (h : (dictGet m k).isSome = true) :
    (dictGet (dictInsert m k2 v) k).isSome = true := by
  by_cases hk : k = k2
  · subst hk; simp [dictGet_insert_self]
  · rw [dictGet_insert_ne m k k2 v hk]; exact h

/-- A key present in the registry survives the rest of the scan. -/
theorem loadFold_preserves (files : List PluginFile) :
    ∀ (st : Registry) (id : String),
      (dictGet st.metadata id).isSome = true ∧ (dictGet st.plugins id).isSome = true →
      (dictGet (files.foldl loadStep st).metadata id).isSome = true ∧
      (dictGet (files.foldl loadStep st).plugins id).isSome = true := by
  induction files with
  | nil => intro st id h; exact h
  | cons f rest ih =>
    intro st id h
    refine ih (loadStep st f) id ?_
    rw [loadStep.eq_def]
    cases hload : loadPlugin f with
    | error e => exact h
    | ok triple =>
      obtain ⟨id2, pc2, md2⟩ := triple
      exact ⟨dictGet_insert_isSome _ _ _ _ h.1, dictGet_insert_isSome _ _ _ _ h.2⟩

/-- A contract-satisfying artifact anywhere in the scan ends up indexed. -/
theorem loadFold_mem_ok (id : String) (pc : ParserClass) (md : Metadata) :
    ∀ (files : List PluginFile) (st : Registry) (f : PluginFile), f ∈ files →
      loadPlugin f = .ok (id, pc, md) →
      (dictGet (files.foldl loadStep st).metadata id).isSome = true ∧
      (dictGet (files.foldl loadStep st).plugins id).isSome = true := by
  intro files
  induction files with
  | nil => intro st f hf; cases hf
  | cons g rest ih =>
    intro st f hf hload
    rcases List.mem_cons.mp hf with hfg | hmem
    · subst hfg
      simp only [List.foldl_cons]
      refine loadFold_preserves rest (loadStep st f) id ?_
      rw [loadStep.eq_def, hload]
      exact ⟨by simp [dictGet_insert_self], by simp [dictGet_insert_self]⟩
    · simp only [List.foldl_cons]
      exact ih (loadStep st g) f hmem hload

/-- Completeness direction helper: a key present after the scan was either
present before it or contributed by a successfully loaded artifact. -/
theorem loadFold_sources (files : List PluginFile) :
    ∀ (st : Registry) (id : String),
      (dictGet (files.foldl loadStep st).metadata id).isSome = true →
      (dictGet st.metadata id).isSome = true ∨
        ∃ f, f ∈ files ∧ ∃ pc md, loadPlugin f = .ok (id, pc, md) := by
  induction files with
  | nil => intro st id h; exact Or.inl h
  | cons f rest ih =>
    intro st id h
    have h2 := ih (loadStep st f) id h
    rcases h2 with h2 | ⟨g, hg, pc, md, hgl⟩
    · rw [loadStep.eq_def] at h2
      cases hload : loadPlugin f with
      | error e =>
        rw [hload] at h2
        exact Or.inl h2
      | ok triple =>
        obtain ⟨id2, pc2, md2⟩ := triple
        rw [hload] at h2
        simp only at h2
        by_cases hid : id = id2
        · subst hid
          exact Or.inr ⟨f, List.mem_cons_self _ _, pc2, md2, hload⟩
        · rw [dictGet_insert_ne _ _ _ _ hid] at h2
          exact Or.inl h2
    · exact Or.inr ⟨g, List.mem_cons_of_mem _ hg, pc, md, hgl⟩

/-- Claim C8: registry load indexes every artifact that satisfies the contract
(both the class index and the metadata index), no matter which other artifacts
in the same scan fail; and, conversely, everything in the index after a load
came from an artifact whose `load_plugin` succeeded — failures contribute
nothing and abort nothing. -/
theorem c8_load_skips_failures (files : List PluginFile) :
    (∀ f ∈ files, ∀ id pc md, loadPlugin f = .ok (id, pc, md) →
      (dictGet (loadPlugins files).metadata id).isSome = true ∧
      (dictGet (loadPlugins files).plugins id).isSome = true) ∧
    (∀ id, (dictGet (loadPlugins files).metadata id).isSome = true →
      ∃ f, f ∈ files ∧ ∃ pc md, loadPlugin f = .ok (id, pc, md)) := by
  constructor
  · intro f hf id pc md hload
    exact loadFold_mem_ok id pc md files Registry.empty f hf hload
  · intro id h
    have hsrc := loadFold_sources files Registry.empty id h
    rcases hsrc with h2 | h2
    · simp [Registry.empty, dictGet] at h2
    · exact h2

/-- Witness for C8: in a directory where the first artifact is missing its
`PLUGIN_NAME` metadata field, the valid second artifact is still loaded and
indexed. -/
theorem c8_load_skips_failures_witness :
    (dictGet (loadPlugins [fileNoName, filePdfB]).metadata "pdf_b").isSome = true ∧
    (dictGet (loadPlugins [fileNoName, filePdfB]).plugins "pdf_b").isSome = true := by
  exact (c8_load_skips_failures [fileNoName, filePdfB]).1 filePdfB (by decide)
    "pdf_b" (pcMk "pdf_b" ".pdf" "bravo" (.error "e"))
    (mkMetadata (pcMk "pdf_b" ".pdf" "bravo" (.error "e")) "pdf_b.pyc") (by decide)

/-! ## Claim C9: registry reload is not an atomic swap -/

/-- Claim C9 counterexample: reloading a registry that used to hold plugin
`pdf_a` from a directory with the two artifacts `pdf_b`, `pdf_c` exposes the
intermediate state holding only `pdf_b` — which is neither the complete old
index nor the complete new index — and the state right after the clear is the
empty index, not the old one. -/
theorem c9_counterexample :
    loadTrace [filePdfB, filePdfC] =
      [Registry.empty, loadPlugins [filePdfB], loadPlugins [filePdfB, filePdfC]] ∧
    loadPlugins [filePdfB] ≠ regOldA ∧
    loadPlugins [filePdfB] ≠ loadPlugins [filePdfB, filePdfC] ∧
    Registry.empty ≠ regOldA ∧
    Registry.empty ≠ loadPlugins [filePdfB, filePdfC] := by
  decide

/-- Helper: the k-th state of the in-place scan is the load of the first k
artifacts applied to the starting state. -/
theorem loadStates_get (files : List PluginFile) :
    ∀ (st : Registry) (i : Nat), i < files.length →
      (loadStates st files).get? i = some ((files.take (i + 1)).foldl loadStep st) := by
  induction files with
  | nil => intro st i hi; cases hi
  | cons f rest ih =>
    intro st i hi
    cases i with
    | zero => simp [loadStates]
    | succ j =>
      have hj : j < rest.length := by simpa using hi
      simpa [loadStates] using ih (loadStep st f) j hj

/-- Claim C9 amended: `load_plugins` clears the in-memory index first and then
populates it one artifact at a time, in place; the observable registry states
during a reload are exactly the loads of the prefixes of the artifact list —
the empty index right after the clear, then one more plugin per step.  A
reader during a reload can therefore observe a partially populated index, and
the old index is discarded when the scan starts rather than being kept until
a final swap. -/
theorem c9_reload_not_atomic (files : List PluginFile) (k : Nat) (hk : k ≤ files.length) :
    (loadTrace files).get? k = some (loadPlugins (files.take k)) := by
  cases k with
  | zero => simp [loadTrace, loadPlugins]
  | succ j =>
    have hj : j < files.length := by omega
    rw [loadTrace.eq_def]
    simpa [loadPlugins] using loadStates_get files Registry.empty j hj

/-- Witness for the amended C9 at the two-artifact reload, mid-scan. -/
theorem c9_reload_not_atomic_witness :
    (loadTrace [filePdfB, filePdfC]).get? 1 =
      some (loadPlugins ([filePdfB, filePdfC].take 1)) := by
  exact c9_reload_not_atomic [filePdfB, filePdfC] 1 (by decide)

/-! ## Claim C10: declared suffixes are not checked against the routers -/

/-- Claim C10 counterexample: an artifact declaring the suffix `.docx` — which
no router handles — is admitted into the metadata index by a successful
registry load, with its suffix stored verbatim. -/
theorem c10_counterexample :
    (dictGet (loadPlugins [fileDocx]).metadata "docx_plug").isSome = true ∧
    dictGet (loadPlugins [fileDocx]).metadata "docx_plug" =
      some (mkMetadata (pcMk "docx_plug" ".docx" "zeta" (.error "e")) "docx_plug.pyc") ∧
    (mkMetadata (pcMk "docx_plug" ".docx" "zeta" (.error "e")) "docx_plug.pyc").SUFFIX =
      ".docx" ∧
    dictGet ROUTERS ".docx" = none := by
  decide

/-- Claim C10 amended: registry load never compares a plugin's declared suffix
with the router registry — any artifact whose required metadata fields are
non-empty is admitted, whatever its suffix; an input whose suffix is not a
`ROUTERS` key only fails later, at dispatch, with the unsupported-suffix
error. -/
theorem c10_suffix_not_checked (f : PluginFile) (pc : ParserClass)
    (hspec : f.specOk = true) (hexec : f.execErr = none)
    (hpc : f.parserClass = some pc) (hip : f.isIParser = true)
    (hval : validateParserClass pc = true) :
    loadPlugin f = .ok (f.stem, pc, mkMetadata pc f.name) ∧
    (∀ s : String, dictGet ROUTERS (strLower s) = none →
      parseAnyRouter s = .error ("Unsupported file suffix: " ++ strLower s)) := by
  constructor
  · simp [loadPlugin, hspec, hexec, hpc, hip, hval]
  · intro s hs
    simp [parseAnyRouter, hs]

/-- Witness for the amended C10 at the `.docx` artifact. -/
theorem c10_suffix_not_checked_witness :
    loadPlugin fileDocx =
      .ok ("docx_plug", pcMk "docx_plug" ".docx" "zeta" (.error "e"),
        mkMetadata (pcMk "docx_plug" ".docx" "zeta" (.error "e")) "docx_plug.pyc") ∧
    parseAnyRouter ".docx" = .error ("Unsupported file suffix: " ++ strLower ".docx") := by
  have h := c10_suffix_not_checked fileDocx (pcMk "docx_plug" ".docx" "zeta" (.error "e"))
    (by decide) (by decide) (by decide) (by decide) (by decide)
  exact ⟨h.1, h.2 ".docx" (by decide)⟩

/-! ## Claim C7: balance reconciliation -/

/-- Inserting a transaction yields a permutation of consing it. -/
theorem insertTx_perm (t : Transaction) : ∀ l, (insertTx t l).Perm (t :: l)
  | [] => List.Perm.refl _
  | u :: us => by
    rw [insertTx.eq_def]
    by_cases h : u.transaction_date ≤ t.transaction_date
    · simp only [if_pos h]
      exact ((insertTx_perm t us).cons u).trans (List.Perm.swap t u us)
    · simp only [if_neg h]
      exact List.Perm.refl _

/-- The insertion-sort fold permutes the accumulator followed by the input. -/
theorem foldl_insertTx_perm :
    ∀ (l acc : List Transaction),
      (l.foldl (fun acc t => insertTx t acc) acc).Perm (acc ++ l)
  | [], acc => by simp
  | t :: rest, acc => by
    simp only [List.foldl_cons]
    refine (foldl_insertTx_perm rest (insertTx t acc)).trans ?_
    refine ((insertTx_perm t acc).append_right rest).trans ?_
    simpa using (List.perm_middle).symm

/-- `sortTx` permutes its input. -/
theorem sortTx_perm (l : List Transaction) : (sortTx l).Perm l := by
  simpa [sortTx] using foldl_insertTx_perm l []

/-- Insertion preserves sortedness by transaction date. -/
theorem insertTx_pairwise (t : Transaction) :
    ∀ l, List.Pairwise (fun a b => a.transaction_date ≤ b.transaction_date) l →
      List.Pairwise (fun a b => a.transaction_date ≤ b.transaction_date) (insertTx t l)
  | [], _ => by simp [insertTx]
  | u :: us, h => by
    rw [List.pairwise_cons] at h
    rw [insertTx.eq_def]
    by_cases hc : u.transaction_date ≤ t.transaction_date
    · simp only [if_pos hc]
      rw [List.pairwise_cons]
      constructor
      · intro v hv
        rcases List.mem_cons.mp ((insertTx_perm t us).mem_iff.mp hv) with rfl | hvus
        · exact hc
        · exact h.1 v hvus
      · exact insertTx_pairwise t us h.2
    · simp only [if_neg hc]
      have hle : t.transaction_date ≤ u.transaction_date := le_of_not_le hc
      rw [List.pairwise_cons]
      refine ⟨?_, List.pairwise_cons.mpr h⟩
      intro v hv
      rcases List.mem_cons.mp hv with rfl | hvus
      · exact hle
      · exact hle.trans (h.1 v hvus)

/-- The insertion-sort fold preserves sortedness of the accumulator. -/
theorem foldl_insertTx_pairwise :
    ∀ (l acc : List Transaction),
      List.Pairwise (fun a b => a.transaction_date ≤ b.transaction_date) acc →
      List.Pairwise (fun a b => a.transaction_date ≤ b.transaction_date)
        (l.foldl (fun acc t => insertTx t acc) acc)
  | [], _, h => h
  | t :: rest, acc, h => by
    simp only [List.foldl_cons]
    exact foldl_insertTx_pairwise rest (insertTx t acc) (insertTx_pairwise t acc h)

/-- `sortTx` sorts by transaction date. -/
theorem sortTx_pairwise (l : List Transaction) :
    List.Pairwise (fun a b => a.transaction_date ≤ b.transaction_date) (sortTx l) := by
  simpa [sortTx] using foldl_insertTx_pairwise l [] (by simp)

/-- Inserting a date-`d` transaction into a sorted list appends it to the
date-`d` subsequence: the stability of the insertion. -/
theorem insertTx_filter_self (d : Int) (t : Transaction) (htd : t.transaction_date = d) :
    ∀ l, List.Pairwise (fun a b => a.transaction_date ≤ b.transaction_date) l →
      (insertTx t l).filter (fun u => u.transaction_date == d) =
        l.filter (fun u => u.transaction_date == d) ++ [t] := by
  intro l
  induction l with
  | nil => intro _; simp [insertTx, htd]
  | cons u us ih =>
    intro h
    rw [List.pairwise_cons] at h
    rw [insertTx.eq_def]
    by_cases hc : u.transaction_date ≤ t.transaction_date
    · simp only [if_pos hc, List.filter_cons, ih h.2]
      by_cases hud : u.transaction_date = d <;> simp [hud]
    · simp only [if_neg hc]
      have hgt : d < u.transaction_date := by
        rw [← htd]
        omega
      have hnone : (u :: us).filter (fun v => v.transaction_date == d) = [] := by
        rw [List.filter_eq_nil_iff]
        intro v hv
        rcases List.mem_cons.mp hv with rfl | hvus
        · simp
          omega
        · have := h.1 v hvus
          simp
          omega
      rw [List.filter_cons, hnone]
      simp [htd]

/-- Inserting a transaction of a different date leaves the date-`d`
subsequence unchanged. -/
theorem insertTx_filter_other (d : Int) (t : Transaction)
    (htd : ¬ t.transaction_date = d) :
    ∀ l, (insertTx t l).filter (fun u => u.transaction_date == d) =
      l.filter (fun u => u.transaction_date == d) := by
  intro l
  induction l with
  | nil => simp [insertTx, htd]
  | cons u us ih =>
    rw [insertTx.eq_def]
    by_cases hc : u.transaction_date ≤ t.transaction_date
    · simp only [if_pos hc, List.filter_cons]
      rw [ih]
    · simp only [if_neg hc, List.filter_cons]
      simp [htd]

/-- The insertion-sort fold is stable: the date-`d` subsequence of the result
is the accumulator's followed by the input's, in original order. -/
theorem foldl_insertTx_filter (d : Int) :
    ∀ (l acc : List Transaction),
      List.Pairwise (fun a b => a.transaction_date ≤ b.transaction_date) acc →
      (l.foldl (fun acc t => insertTx t acc) acc).filter (fun u => u.transaction_date == d) =
        acc.filter (fun u => u.transaction_date == d) ++
          l.filter (fun u => u.transaction_date == d)
  | [], acc, _ => by simp
  | t :: rest, acc, h => by
    simp only [List.foldl_cons]
    rw [foldl_insertTx_filter d rest (insertTx t acc) (insertTx_pairwise t acc h)]
    by_cases htd : t.transaction_date = d
    · rw [insertTx_filter_self d t htd acc h, List.filter_cons]
      simp [htd, List.append_assoc]
    · rw [insertTx_filter_other d t htd acc, List.filter_cons]
      simp [htd]

/-- Stability of `sortTx`: for every date, the transactions of that date keep
their original relative order. -/
theorem sortTx_filter (l : List Transaction) (d : Int) :
    (sortTx l).filter (fun u => u.transaction_date == d) =
      l.filter (fun u => u.transaction_date == d) := by
  simpa [sortTx] using foldl_insertTx_filter d l [] (by simp)

/-- Overwriting balances does not change anything the balance-stripped view
sees. -/
theorem computeBalances_strip :
    ∀ (l : List Transaction) (b : Rat),
      (computeBalances b l).map stripBalance = l.map stripBalance
  | [], _ => rfl
  | t :: ts, b => by
    simp only [computeBalances, List.map_cons]
    rw [computeBalances_strip ts]
    rfl

/-- Overwriting balances preserves the amounts, pointwise. -/
theorem computeBalances_amount :
    ∀ (l : List Transaction) (b : Rat),
      (computeBalances b l).map (fun t => t.amount) = l.map (fun t => t.amount)
  | [], _ => rfl
  | t :: ts, b => by
    simp only [computeBalances, List.map_cons]
    rw [computeBalances_amount ts]

/-- Overwriting balances preserves the transaction dates, pointwise. -/
theorem computeBalances_dates :
    ∀ (l : List Transaction) (b : Rat),
      (computeBalances b l).map (fun t => t.transaction_date) =
        l.map (fun t => t.transaction_date)
  | [], _ => rfl
  | t :: ts, b => by
    simp only [computeBalances, List.map_cons]
    rw [computeBalances_dates ts]

/-- The `i`-th balance written by `computeBalances` is the running total of
the first `i + 1` amounts on top of the starting balance. -/
theorem computeBalances_get :
    ∀ (l : List Transaction) (b : Rat) (i : Nat) (h : i < (computeBalances b l).length),
      ((computeBalances b l).get ⟨i, h⟩).balance =
        some (b + ((l.take (i + 1)).map (fun t => t.amount)).sum)
  | [], b, i, h => by simp [computeBalances] at h
  | t :: ts, b, 0, h => by simp [computeBalances]
  | t :: ts, b, i + 1, h => by
    have h2 : i < (computeBalances (b + t.amount) ts).length := by
      simpa [computeBalances] using h
    have ih := computeBalances_get ts (b + t.amount) i h2
    simp only [computeBalances, List.get_cons_succ, List.take_succ_cons, List.map_cons,
      List.sum_cons]
    rw [ih, add_assoc]

/-- The last balance written by `computeBalances` is the starting balance plus
the sum of all amounts. -/
theorem computeBalances_getLast :
    ∀ (l : List Transaction) (b : Rat), l ≠ [] →
      ((computeBalances b l).getLast?).map (fun t => t.balance) =
        some (some (b + (l.map (fun t => t.amount)).sum))
  | [], _, h => absurd rfl h
  | t :: ts, b, _ => by
    cases ts with
    | nil => simp [computeBalances, List.getLast?_singleton]
    | cons u ts2 =>
      have ih := computeBalances_getLast (u :: ts2) (b + t.amount) (by simp)
      simp only [computeBalances] at ih ⊢
      rw [List.getLast?_cons_cons, ih]
      simp only [List.map_cons, List.sum_cons]
      rw [add_assoc]

/-- Overwriting balances commutes with filtering by date, up to the stripped
view. -/
theorem computeBalances_filter_strip (d : Int) :
    ∀ (l : List Transaction) (b : Rat),
      ((computeBalances b l).filter (fun u => u.transaction_date == d)).map stripBalance =
        (l.filter (fun u => u.transaction_date == d)).map stripBalance
  | [], _ => rfl
  | t :: ts, b => by
    simp only [computeBalances, List.filter_cons]
    by_cases htd : t.transaction_date = d
    · have hc1 : (({ t with balance := some (b + t.amount) } : Transaction).transaction_date
          == d) = true := by simp [htd]
      have hc2 : (t.transaction_date == d) = true := by simp [htd]
      simp only [hc1, hc2, if_true, List.map_cons, computeBalances_filter_strip d ts]
      rfl
    · have hc1 : (({ t with balance := some (b + t.amount) } : Transaction).transaction_date
          == d) = false := by simp [htd]
      have hc2 : (t.transaction_date == d) = false := by simp [htd]
      simp only [hc1, hc2, Bool.false_eq_true, if_false]
      exact computeBalances_filter_strip d ts (b + t.amount)

/-- Claim C7: after `sort_and_compute_balances` the account's transactions are
in chronological order (sorted by transaction date), are — ignoring the
overwritten balance fields — a permutation of the original transactions, with
each date's transactions kept in their original extraction order (stability);
every transaction's balance is overwritten with `start_balance` plus the sum
of all amounts up to and including it; and the balance of the last
transaction equals `start_balance` plus the sum of all the account's amounts,
whatever balances the plugin supplied. -/
theorem c7_reconcile_balances (a : Account) (hne : a.transactions ≠ []) :
    List.Pairwise (fun t u => t.transaction_date ≤ u.transaction_date)
      (a.sort_and_compute_balances).transactions ∧
    ((a.sort_and_compute_balances).transactions.map stripBalance).Perm
      (a.transactions.map stripBalance) ∧
    (∀ d : Int,
      ((a.sort_and_compute_balances).transactions.filter
          (fun t => t.transaction_date == d)).map stripBalance =
        (a.transactions.filter (fun t => t.transaction_date == d)).map stripBalance) ∧
    (∀ i, (h : i < (a.sort_and_compute_balances).transactions.length) →
      ((a.sort_and_compute_balances).transactions.get ⟨i, h⟩).balance =
        some (a.start_balance +
          (((a.sort_and_compute_balances).transactions.take (i + 1)).map
            (fun t => t.amount)).sum)) ∧
    ((a.sort_and_compute_balances).transactions.getLast?).map (fun t => t.balance) =
      some (some (a.start_balance + (a.transactions.map (fun t => t.amount)).sum)) := by
  have hdef : (a.sort_and_compute_balances).transactions =
      computeBalances a.start_balance (sortTx a.transactions) := rfl
  refine ⟨?_, ?_, ?_, ?_, ?_⟩
  · rw [hdef]
    have hs := sortTx_pairwise a.transactions
    have hdates := computeBalances_dates (sortTx a.transactions) a.start_balance
    rw [← List.pairwise_map (f := fun t : Transaction => t.transaction_date)] at hs ⊢
    rw [hdates]
    exact hs
  · rw [hdef, computeBalances_strip]
    exact (sortTx_perm a.transactions).map stripBalance
  · intro d
    rw [hdef, computeBalances_filter_strip, sortTx_filter]
  · intro i h
    show ((computeBalances a.start_balance (sortTx a.transactions)).get ⟨i, h⟩).balance =
      some (a.start_balance +
        (((computeBalances a.start_balance (sortTx a.transactions)).take (i + 1)).map
          (fun t => t.amount)).sum)
    rw [computeBalances_get (sortTx a.transactions) a.start_balance i h]
    have htake : ((computeBalances a.start_balance (sortTx a.transactions)).take
        (i + 1)).map (fun t => t.amount) =
        ((sortTx a.transactions).take (i + 1)).map (fun t => t.amount) := by
      rw [List.map_take, List.map_take, computeBalances_amount]
    rw [htake]
  · rw [hdef]
    have hsne : sortTx a.transactions ≠ [] := by
      intro hnil
      have := (sortTx_perm a.transactions).length_eq
      rw [hnil] at this
      exact hne (List.eq_nil_of_length_eq_zero this.symm)
    rw [computeBalances_getLast (sortTx a.transactions) a.start_balance hsne]
    have hsum : ((sortTx a.transactions).map (fun t => t.amount)).sum =
        (a.transactions.map (fun t => t.amount)).sum :=
      ((sortTx_perm a.transactions).map (fun t => t.amount)).sum_eq
    rw [hsum]

/-- Witness for C7 at a two-transaction account arriving out of order with a
bogus plugin-supplied balance: the last reconciled balance is the start
balance plus the total of the amounts. -/
theorem c7_reconcile_balances_witness :
    ((acctW.sort_and_compute_balances).transactions.getLast?).map (fun t => t.balance) =
      some (some (acctW.start_balance + (acctW.transactions.map (fun t => t.amount)).sum)) := by
  exact (c7_reconcile_balances acctW (by decide)).2.2.2.2

end PT